import Mathlib

/-!
Verification of the GraphQL client library (`kili/graphql_client.py`).

The development shallowly embeds the two clients of the source file:

* `GraphQLClient` — the HTTP request path (`execute`/`_send`): a 3-attempt
  retry loop over a `session.post` oracle, and the sessionless
  `urllib.request.urlopen` one-shot path.
* `SubscriptionGraphQLClient` — the websocket path: `_conn_init`, `_start`,
  `_stop`, `query`, `subscribe`'s delivery loop `subs`, `stop_subscribe`,
  and the identifier generator `gen_id`.

Wire messages are modelled as `List Char`.  The Python `json` module used
to encode and decode frames is modelled by an executable serializer
`dumps` (mirroring `json.dumps` with its default separators and
`ensure_ascii` escaping) and an executable parser `loads` (mirroring
`json.loads` on the integer-numeric fragment: numbers are modelled as
integers, which is the fragment the protocol frames exercise; the parser
is otherwise a faithful recursive-descent JSON reader, including
`\uXXXX` escapes and surrogate pairs).

Randomness (`random.choice` inside `gen_id`) and thread identities
(`threading.Thread`) are modelled by explicit oracles: a `Nat → Nat`
random stream, and numeric thread identifiers.
-/

namespace GQL

/-! ## Characters used by the JSON wire format -/

def quoteChar : Char := Char.ofNat 34

def backslashChar : Char := Char.ofNat 92

def lbraceChar : Char := Char.ofNat 123

def rbraceChar : Char := Char.ofNat 125

def lbrackChar : Char := '['

def rbrackChar : Char := ']'

/-- Characters skipped as whitespace by `json.loads`. -/
def isWsChar (c : Char) : Bool :=
  c.toNat = 32 || c.toNat = 9 || c.toNat = 10 || c.toNat = 13

/-- Decimal digit test, phrased on code points (as `str.isdigit` for ASCII). -/
def isDigitChar (c : Char) : Bool :=
  48 ≤ c.toNat && c.toNat ≤ 57

/-! ## The JSON data model

Python `json.loads` produces dicts, lists, strings, numbers, booleans and
`None`; `json.dumps` serializes the same values.  Objects are modelled as
association lists in insertion order, which is the order `json.dumps`
writes a dict's entries. -/

inductive Json where
  | null : Json
  | bool (b : Bool) : Json
  | num (n : Int) : Json
  | str (s : List Char) : Json
  | arr (items : List Json) : Json
  | obj (pairs : List (List Char × Json)) : Json

mutual

/-- Structural equality test on JSON values. -/
def Json.beq : Json → Json → Bool
  | .null, .null => true
  | .bool a, .bool b => a == b
  | .num a, .num b => a == b
  | .str a, .str b => a == b
  | .arr a, .arr b => Json.beqItems a b
  | .obj a, .obj b => Json.beqPairs a b
  | _, _ => false

/-- Pointwise equality test on lists of JSON values. -/
def Json.beqItems : List Json → List Json → Bool
  | [], [] => true
  | a :: as, b :: bs => Json.beq a b && Json.beqItems as bs
  | _, _ => false

/-- Pointwise equality test on object entry lists (keys and values). -/
def Json.beqPairs : List (List Char × Json) → List (List Char × Json) → Bool
  | [], [] => true
  | a :: as, b :: bs => (a.1 == b.1 && Json.beq a.2 b.2) && Json.beqPairs as bs
  | _, _ => false

end

mutual

theorem Json.beq_iff : ∀ a b : Json, Json.beq a b = true ↔ a = b
  | .null, .null => by simp [Json.beq]
  | .bool _, .bool _ => by simp [Json.beq]
  | .num _, .num _ => by simp [Json.beq]
  | .str _, .str _ => by simp [Json.beq]
  | .arr a, .arr b => by simp [Json.beq, Json.beqItems_iff a b]
  | .obj a, .obj b => by simp [Json.beq, Json.beqPairs_iff a b]
  | .null, .bool _ | .null, .num _ | .null, .str _ | .null, .arr _ | .null, .obj _
  | .bool _, .null | .bool _, .num _ | .bool _, .str _ | .bool _, .arr _ | .bool _, .obj _
  | .num _, .null | .num _, .bool _ | .num _, .str _ | .num _, .arr _ | .num _, .obj _
  | .str _, .null | .str _, .bool _ | .str _, .num _ | .str _, .arr _ | .str _, .obj _
  | .arr _, .null | .arr _, .bool _ | .arr _, .num _ | .arr _, .str _ | .arr _, .obj _
  | .obj _, .null | .obj _, .bool _ | .obj _, .num _ | .obj _, .str _ | .obj _, .arr _ =>
    by simp [Json.beq]

theorem Json.beqItems_iff : ∀ a b : List Json, Json.beqItems a b = true ↔ a = b
  | [], [] => by simp [Json.beqItems]
  | x :: xs, y :: ys => by
    simp [Json.beqItems, Json.beq_iff x y, Json.beqItems_iff xs ys]
  | [], _ :: _ => by simp [Json.beqItems]
  | _ :: _, [] => by simp [Json.beqItems]

theorem Json.beqPairs_iff :
    ∀ a b : List (List Char × Json), Json.beqPairs a b = true ↔ a = b
  | [], [] => by simp [Json.beqPairs]
  | x :: xs, y :: ys => by
    simp [Json.beqPairs, Json.beq_iff x.2 y.2, Json.beqPairs_iff xs ys,
      Prod.ext_iff, and_assoc]
  | [], _ :: _ => by simp [Json.beqPairs]
  | _ :: _, [] => by simp [Json.beqPairs]

end

instance : DecidableEq Json := fun a b => decidable_of_iff _ (Json.beq_iff a b)

/-! ## `json.dumps`

The serializer used on every `self._conn.send(json.dumps(...))` call of the
source.  Default `json.dumps` settings: item separator `", "`, key separator
`": "`, `ensure_ascii=True` (every code point outside `0x20..0x7e` is written
as a `\uXXXX` escape, astral code points as a surrogate pair). -/

/-- Lowercase hexadecimal digit, as Python's `\uXXXX` escapes use. -/
def hexDig (d : Nat) : Char :=
  if d < 10 then Char.ofNat (48 + d) else Char.ofNat (87 + d)

/-- Four-digit lowercase hexadecimal rendering of `n` (`n < 0x10000`). -/
def toHex4 (n : Nat) : List Char :=
  [hexDig (n / 4096 % 16), hexDig (n / 256 % 16), hexDig (n / 16 % 16), hexDig (n % 16)]

/-- How `json.dumps` writes one character of a string
(`py_encode_basestring_ascii`): `"` and `\` get a backslash escape, the
control characters 8, 9, 10, 12, 13 get their short escapes, every other
character outside `0x20..0x7e` becomes `\uXXXX` (a surrogate pair above
`0xffff`), and the rest stand for themselves. -/
def escapeChar (c : Char) : List Char :=
  if c.toNat = 34 then [backslashChar, quoteChar]
  else if c.toNat = 92 then [backslashChar, backslashChar]
  else if c.toNat = 8 then [backslashChar, 'b']
  else if c.toNat = 9 then [backslashChar, 't']
  else if c.toNat = 10 then [backslashChar, 'n']
  else if c.toNat = 12 then [backslashChar, 'f']
  else if c.toNat = 13 then [backslashChar, 'r']
  else if c.toNat < 32 then backslashChar :: 'u' :: toHex4 c.toNat
  else if c.toNat < 127 then [c]
  else if c.toNat < 65536 then backslashChar :: 'u' :: toHex4 c.toNat
  else
    backslashChar :: 'u' :: toHex4 (55296 + (c.toNat - 65536) / 1024) ++
      backslashChar :: 'u' :: toHex4 (56320 + (c.toNat - 65536) % 1024)

/-- Escape every character of a string body. -/
def escString : List Char → List Char
  | [] => []
  | c :: s => escapeChar c ++ escString s

/-- A JSON string literal: quote, escaped body, quote. -/
def dumpString (s : List Char) : List Char :=
  quoteChar :: escString s ++ [quoteChar]

/-- Decimal rendering of a natural number, most significant digit first,
as Python writes an `int`. -/
def natDec (n : Nat) : List Char :=
  if n < 10 then [Char.ofNat (48 + n)]
  else natDec (n / 10) ++ [Char.ofNat (48 + n % 10)]
  termination_by n
  decreasing_by exact Nat.div_lt_self (by omega) (by omega)

/-- Decimal rendering of an integer, as Python writes an `int`. -/
def intDec (i : Int) : List Char :=
  if i < 0 then '-' :: natDec i.natAbs else natDec i.toNat

mutual

/-- Model of `json.dumps` on a JSON value, with the default separators. -/
def dumps : Json → List Char
  | .null => "null".data
  | .bool true => "true".data
  | .bool false => "false".data
  | .num i => intDec i
  | .str s => dumpString s
  | .arr items => lbrackChar :: encItems items ++ [rbrackChar]
  | .obj pairs => lbraceChar :: encPairs pairs ++ [rbraceChar]

/-- The body of a serialized array: first item, then `", "`-separated rest. -/
def encItems : List Json → List Char
  | [] => []
  | x :: xs => dumps x ++ encItemsTail xs

/-- Emits `", item"` for each remaining array item. -/
def encItemsTail : List Json → List Char
  | [] => []
  | x :: xs => ',' :: ' ' :: (dumps x ++ encItemsTail xs)

/-- The body of a serialized object: first entry, then `", "`-separated rest. -/
def encPairs : List (List Char × Json) → List Char
  | [] => []
  | kv :: kvs => dumpString kv.1 ++ ':' :: ' ' :: dumps kv.2 ++ encPairsTail kvs

/-- Emits `", \"key\": value"` for each remaining object entry. -/
def encPairsTail : List (List Char × Json) → List Char
  | [] => []
  | kv :: kvs => ',' :: ' ' :: (dumpString kv.1 ++ ':' :: ' ' :: dumps kv.2 ++ encPairsTail kvs)

end

/-! ## `json.loads`

A recursive-descent reader for the texts produced by `dumps` (and more):
it skips JSON whitespace, reads the two-character and `\uXXXX` string
escapes (recombining surrogate pairs), and reads integer numerals.  This is
the decoder applied to every received wire message
(`json.loads(self._conn.recv())` and `json.loads(message)` in the source). -/

/-- Drop leading JSON whitespace. -/
def skipWs : List Char → List Char
  | [] => []
  | c :: l => if isWsChar c then skipWs l else c :: l

/-- Value of one hexadecimal digit; `json.loads` accepts both cases. -/
def hexVal (c : Char) : Option Nat :=
  let n := c.toNat
  if 48 ≤ n ∧ n ≤ 57 then some (n - 48)
  else if 97 ≤ n ∧ n ≤ 102 then some (n - 87)
  else if 65 ≤ n ∧ n ≤ 70 then some (n - 55)
  else none

/-- Value of a four-digit hexadecimal escape payload. -/
def hex4 (a b c d : Char) : Option Nat := do
  let va ← hexVal a
  let vb ← hexVal b
  let vc ← hexVal c
  let vd ← hexVal d
  some (((va * 16 + vb) * 16 + vc) * 16 + vd)

/-- The two-character string escapes `json.loads` accepts. -/
def escDecode (e : Char) : Option Char :=
  if e = quoteChar then some quoteChar
  else if e = backslashChar then some backslashChar
  else if e = '/' then some '/'
  else if e = 'b' then some (Char.ofNat 8)
  else if e = 't' then some (Char.ofNat 9)
  else if e = 'n' then some (Char.ofNat 10)
  else if e = 'f' then some (Char.ofNat 12)
  else if e = 'r' then some (Char.ofNat 13)
  else none

/-- Read the remainder of one escape sequence (the backslash has been
consumed): either a two-character escape, or `\uXXXX`, where a high
surrogate must be followed by a low surrogate escape and the pair is
recombined into one code point, the way `json.loads` rebuilds astral
characters. -/
def readEsc : List Char → Option (Char × List Char)
  | [] => none
  | e :: l =>
    if e = 'u' then
      match l with
      | h1 :: h2 :: h3 :: h4 :: l3 =>
        (hex4 h1 h2 h3 h4).bind (fun n =>
          if n < 55296 ∨ 57344 ≤ n then some (Char.ofNat n, l3)
          else if n < 56320 then
            match l3 with
            | b2 :: u2 :: g1 :: g2 :: g3 :: g4 :: l4 =>
              if b2 = backslashChar ∧ u2 = 'u' then
                (hex4 g1 g2 g3 g4).bind (fun m =>
                  if 56320 ≤ m ∧ m < 57344 then
                    some (Char.ofNat (65536 + (n - 55296) * 1024 + (m - 56320)), l4)
                  else none)
              else none
            | _ => none
          else none)
      | _ => none
    else (escDecode e).map (fun c => (c, l))

/-- Read a string body up to (and through) the closing quote.  The fuel
only needs to exceed the number of characters of the body, since every
step consumes at least one character. -/
def parseJStrAux : Nat → List Char → Option (List Char × List Char)
  | 0, _ => none
  | _ + 1, [] => none
  | fuel + 1, c :: l =>
    if c = quoteChar then some ([], l)
    else if c = backslashChar then
      (readEsc l).bind (fun p => (parseJStrAux fuel p.2).map (fun q => (p.1 :: q.1, q.2)))
    else (parseJStrAux fuel l).map (fun q => (c :: q.1, q.2))

/-- Read a string body (after the opening quote). -/
def parseJString (l : List Char) : Option (List Char × List Char) :=
  parseJStrAux l.length l

/-- Consume a run of decimal digits, extending the accumulator `acc`. -/
def digitsLoop : List Char → Nat → Nat × List Char
  | [], acc => (acc, [])
  | c :: l, acc =>
    if isDigitChar c then digitsLoop l (acc * 10 + (c.toNat - 48)) else (acc, c :: l)

/-- Read a natural numeral (at least one digit). -/
def parseNat : List Char → Option (Nat × List Char)
  | [] => none
  | c :: l =>
    if isDigitChar c then some (digitsLoop l (c.toNat - 48)) else none

mutual

/-- Read one JSON value.  The fuel argument bounds the recursion depth and
is in surplus whenever it exceeds the `measJ` measure of the value being
read (see `parse_dumps`). -/
def parseVal : Nat → List Char → Option (Json × List Char)
  | 0, _ => none
  | fuel + 1, l =>
    match skipWs l with
    | [] => none
    | c :: r =>
      if c = quoteChar then
        match parseJString r with
        | some (s, r2) => some (.str s, r2)
        | none => none
      else if c = lbrackChar then
        match parseArrBody fuel r with
        | some (items, r2) => some (.arr items, r2)
        | none => none
      else if c = lbraceChar then
        match parseObjBody fuel r with
        | some (pairs, r2) => some (.obj pairs, r2)
        | none => none
      else if c = 't' then
        match r with
        | 'r' :: 'u' :: 'e' :: r2 => some (.bool true, r2)
        | _ => none
      else if c = 'f' then
        match r with
        | 'a' :: 'l' :: 's' :: 'e' :: r2 => some (.bool false, r2)
        | _ => none
      else if c = 'n' then
        match r with
        | 'u' :: 'l' :: 'l' :: r2 => some (.null, r2)
        | _ => none
      else if c = '-' then
        match parseNat r with
        | some (n, r2) => some (.num (-(n : Int)), r2)
        | none => none
      else if isDigitChar c then
        match parseNat (c :: r) with
        | some (n, r2) => some (.num (n : Int), r2)
        | none => none
      else none

/-- Read an array body after the opening bracket: `]` or items. -/
def parseArrBody : Nat → List Char → Option (List Json × List Char)
  | 0, _ => none
  | fuel + 1, l =>
    match skipWs l with
    | [] => none
    | c :: r =>
      if c = rbrackChar then some ([], r)
      else
        match parseVal fuel (c :: r) with
        | none => none
        | some (v, r2) =>
          match parseArrTail fuel r2 with
          | none => none
          | some (vs, r3) => some (v :: vs, r3)

/-- After one array item: `]` ends the array, `,` introduces another item. -/
def parseArrTail : Nat → List Char → Option (List Json × List Char)
  | 0, _ => none
  | fuel + 1, l =>
    match skipWs l with
    | [] => none
    | c :: r =>
      if c = rbrackChar then some ([], r)
      else if c = ',' then
        match parseVal fuel r with
        | none => none
        | some (v, r2) =>
          match parseArrTail fuel r2 with
          | none => none
          | some (vs, r3) => some (v :: vs, r3)
      else none

/-- Read one `"key": value` member. -/
def parsePair : Nat → List Char → Option ((List Char × Json) × List Char)
  | 0, _ => none
  | fuel + 1, l =>
    match skipWs l with
    | [] => none
    | c :: r =>
      if c = quoteChar then
        match parseJString r with
        | none => none
        | some (k, r2) =>
          match skipWs r2 with
          | ':' :: r3 =>
            match parseVal fuel r3 with
            | none => none
            | some (v, r4) => some ((k, v), r4)
          | _ => none
      else none

/-- Read an object body after the opening brace: `}` or members. -/
def parseObjBody : Nat → List Char → Option (List (List Char × Json) × List Char)
  | 0, _ => none
  | fuel + 1, l =>
    match skipWs l with
    | [] => none
    | c :: r =>
      if c = rbraceChar then some ([], r)
      else
        match parsePair fuel (c :: r) with
        | none => none
        | some (kv, r2) =>
          match parseObjTail fuel r2 with
          | none => none
          | some (kvs, r3) => some (kv :: kvs, r3)

/-- After one member: `}` ends the object, `,` introduces another member. -/
def parseObjTail : Nat → List Char → Option (List (List Char × Json) × List Char)
  | 0, _ => none
  | fuel + 1, l =>
    match skipWs l with
    | [] => none
    | c :: r =>
      if c = rbraceChar then some ([], r)
      else if c = ',' then
        match parsePair fuel r with
        | none => none
        | some (kv, r2) =>
          match parseObjTail fuel r2 with
          | none => none
          | some (kvs, r3) => some (kv :: kvs, r3)
      else none

end

/-- Model of `json.loads`: read one value, then require only trailing whitespace.
The fuel `2 * l.length + 1` dominates the measure of any value whose
rendering fits in `l` (lemma `measJ_le`). -/
def loads (l : List Char) : Option Json :=
  match parseVal (2 * l.length + 1) l with
  | some (v, rest) => if skipWs rest = [] then some v else none
  | none => none

/-! ## Round-trip of the codec -/

theorem char_eq_iff_toNat {a b : Char} : a = b ↔ a.toNat = b.toNat :=
  ⟨fun h => by rw [h], fun h => Char.ext (UInt32.ext h)⟩

theorem charToNat_lt (c : Char) : c.toNat < 1114112 := by
  have h := c.valid
  have e : c.toNat = c.val.toNat := rfl
  rcases h with h | h <;> omega

theorem charToNat_not_surrogate (c : Char) : c.toNat < 55296 ∨ 57344 ≤ c.toNat := by
  have h := c.valid
  have e : c.toNat = c.val.toNat := rfl
  rcases h with h | h <;> omega

theorem hexVal_hexDig : ∀ d, d < 16 → hexVal (hexDig d) = some d := by decide

theorem hex4_toHex4 (n : Nat) (h : n < 65536) :
    hex4 (hexDig (n / 4096 % 16)) (hexDig (n / 256 % 16)) (hexDig (n / 16 % 16))
      (hexDig (n % 16)) = some n := by
  rw [hex4, hexVal_hexDig _ (by omega), hexVal_hexDig _ (by omega),
    hexVal_hexDig _ (by omega), hexVal_hexDig _ (by omega)]
  show some _ = some n
  congr 1
  omega

theorem readEsc_short (e d : Char) (hu : ¬ e = 'u') (hd : escDecode e = some d)
    (l : List Char) : readEsc (e :: l) = some (d, l) := by
  simp [readEsc, hu, hd]

theorem readEsc_u_one {h1 h2 h3 h4 : Char} {n : Nat} (hh : hex4 h1 h2 h3 h4 = some n)
    (hn : n < 55296 ∨ 57344 ≤ n) (l : List Char) :
    readEsc ('u' :: h1 :: h2 :: h3 :: h4 :: l) = some (Char.ofNat n, l) := by
  simp [readEsc, hh, hn]

theorem readEsc_u_pair {h1 h2 h3 h4 g1 g2 g3 g4 : Char} {n m : Nat}
    (hh : hex4 h1 h2 h3 h4 = some n) (hn1 : 55296 ≤ n) (hn2 : n < 56320)
    (hg : hex4 g1 g2 g3 g4 = some m) (hm1 : 56320 ≤ m) (hm2 : m < 57344)
    (l : List Char) :
    readEsc ('u' :: h1 :: h2 :: h3 :: h4 :: backslashChar :: 'u' :: g1 :: g2 :: g3 :: g4 :: l) =
      some (Char.ofNat (65536 + (n - 55296) * 1024 + (m - 56320)), l) := by
  have hno : ¬ (n < 55296 ∨ 57344 ≤ n) := by omega
  simp [readEsc, hh, hg, hno, hn2, hm1, hm2]

theorem parseJStrAux_quote (fuel : Nat) (rest : List Char) :
    parseJStrAux (fuel + 1) (quoteChar :: rest) = some ([], rest) := by
  simp [parseJStrAux]

theorem parseJStrAux_back (fuel : Nat) (l : List Char) :
    parseJStrAux (fuel + 1) (backslashChar :: l) =
      (readEsc l).bind
        (fun p => (parseJStrAux fuel p.2).map (fun q => (p.1 :: q.1, q.2))) := by
  rw [parseJStrAux, if_neg (by decide), if_pos rfl]

theorem parseJStrAux_plain {c : Char} (h1 : ¬ c = quoteChar) (h2 : ¬ c = backslashChar)
    (fuel : Nat) (l : List Char) :
    parseJStrAux (fuel + 1) (c :: l) =
      (parseJStrAux fuel l).map (fun q => (c :: q.1, q.2)) := by
  rw [parseJStrAux, if_neg h1, if_neg h2]

theorem parseJStrAux_esc (s : List Char) : ∀ fuel rest, (escString s).length < fuel →
    parseJStrAux fuel (escString s ++ quoteChar :: rest) = some (s, rest) := by
  have hquote : quoteChar.toNat = 34 := by decide
  have hback : backslashChar.toNat = 92 := by decide
  induction s with
  | nil =>
    intro fuel rest hf
    match fuel, hf with
    | fuel + 1, _ => exact parseJStrAux_quote fuel rest
  | cons c s ih =>
    intro fuel rest hf
    rw [escString] at hf ⊢
    rw [List.append_assoc]
    rw [escapeChar] at hf ⊢
    have short : ∀ (ec : Char) (f : Nat), ¬ ec = 'u' → escDecode ec = some c →
        (escString s).length < f →
        parseJStrAux (f + 1) (backslashChar :: ec :: (escString s ++ quoteChar :: rest)) =
          some (c :: s, rest) := by
      intro ec f hu hd hlen
      rw [parseJStrAux_back, readEsc_short ec c hu hd]
      simp [ih f rest hlen]
    by_cases h34 : c.toNat = 34
    · have hc : c = quoteChar := char_eq_iff_toNat.mpr (by omega)
      rw [if_pos h34] at hf ⊢
      match fuel, hf with
      | fuel + 1, hf =>
        have hlen : (escString s).length < fuel := by simp at hf; omega
        simp only [List.cons_append, List.nil_append]
        exact short quoteChar fuel (by decide) (by rw [hc]; decide) hlen
    · rw [if_neg h34] at hf ⊢
      by_cases h92 : c.toNat = 92
      · have hc : c = backslashChar := char_eq_iff_toNat.mpr (by omega)
        rw [if_pos h92] at hf ⊢
        match fuel, hf with
        | fuel + 1, hf =>
          have hlen : (escString s).length < fuel := by simp at hf; omega
          simp only [List.cons_append, List.nil_append]
          exact short backslashChar fuel (by decide) (by rw [hc]; decide) hlen
      · rw [if_neg h92] at hf ⊢
        by_cases h8 : c.toNat = 8
        · have hc : c = Char.ofNat 8 := char_eq_iff_toNat.mpr (by rw [h8]; decide)
          rw [if_pos h8] at hf ⊢
          match fuel, hf with
          | fuel + 1, hf =>
            have hlen : (escString s).length < fuel := by simp at hf; omega
            simp only [List.cons_append, List.nil_append]
            exact short 'b' fuel (by decide) (by rw [hc]; decide) hlen
        · rw [if_neg h8] at hf ⊢
          by_cases h9 : c.toNat = 9
          · have hc : c = Char.ofNat 9 := char_eq_iff_toNat.mpr (by rw [h9]; decide)
            rw [if_pos h9] at hf ⊢
            match fuel, hf with
            | fuel + 1, hf =>
              have hlen : (escString s).length < fuel := by simp at hf; omega
              simp only [List.cons_append, List.nil_append]
              exact short 't' fuel (by decide) (by rw [hc]; decide) hlen
          · rw [if_neg h9] at hf ⊢
            by_cases h10 : c.toNat = 10
            · have hc : c = Char.ofNat 10 := char_eq_iff_toNat.mpr (by rw [h10]; decide)
              rw [if_pos h10] at hf ⊢
              match fuel, hf with
              | fuel + 1, hf =>
                have hlen : (escString s).length < fuel := by simp at hf; omega
                simp only [List.cons_append, List.nil_append]
                exact short 'n' fuel (by decide) (by rw [hc]; decide) hlen
            · rw [if_neg h10] at hf ⊢
              by_cases h12 : c.toNat = 12
              · have hc : c = Char.ofNat 12 := char_eq_iff_toNat.mpr (by rw [h12]; decide)
                rw [if_pos h12] at hf ⊢
                match fuel, hf with
                | fuel + 1, hf =>
                  have hlen : (escString s).length < fuel := by simp at hf; omega
                  simp only [List.cons_append, List.nil_append]
                  exact short 'f' fuel (by decide) (by rw [hc]; decide) hlen
              · rw [if_neg h12] at hf ⊢
                by_cases h13 : c.toNat = 13
                · have hc : c = Char.ofNat 13 := char_eq_iff_toNat.mpr (by rw [h13]; decide)
                  rw [if_pos h13] at hf ⊢
                  match fuel, hf with
                  | fuel + 1, hf =>
                    have hlen : (escString s).length < fuel := by simp at hf; omega
                    simp only [List.cons_append, List.nil_append]
                    exact short 'r' fuel (by decide) (by rw [hc]; decide) hlen
                · rw [if_neg h13] at hf ⊢
                  by_cases hlow : c.toNat < 32
                  · rw [if_pos hlow] at hf ⊢
                    match fuel, hf with
                    | fuel + 1, hf =>
                      have hlen : (escString s).length < fuel := by simp at hf; omega
                      rw [toHex4]
                      simp only [List.cons_append, List.nil_append]
                      rw [parseJStrAux_back]
                      rw [readEsc_u_one (hex4_toHex4 c.toNat (by omega)) (by omega)]
                      simp [ih fuel rest hlen, Char.ofNat_toNat]
                  · rw [if_neg hlow] at hf ⊢
                    by_cases hmid : c.toNat < 127
                    · rw [if_pos hmid] at hf ⊢
                      match fuel, hf with
                      | fuel + 1, hf =>
                        have hlen : (escString s).length < fuel := by simp at hf; omega
                        simp only [List.cons_append, List.nil_append]
                        rw [parseJStrAux_plain
                          (by rw [char_eq_iff_toNat, hquote]; omega)
                          (by rw [char_eq_iff_toNat, hback]; omega)]
                        simp [ih fuel rest hlen]
                    · rw [if_neg hmid] at hf ⊢
                      by_cases hbmp : c.toNat < 65536
                      · rw [if_pos hbmp] at hf ⊢
                        match fuel, hf with
                        | fuel + 1, hf =>
                          have hlen : (escString s).length < fuel := by simp at hf; omega
                          rw [toHex4]
                          simp only [List.cons_append, List.nil_append]
                          rw [parseJStrAux_back]
                          rw [readEsc_u_one (hex4_toHex4 c.toNat (by omega))
                            (charToNat_not_surrogate c)]
                          simp [ih fuel rest hlen, Char.ofNat_toNat]
                      · rw [if_neg hbmp] at hf ⊢
                        have hlt := charToNat_lt c
                        match fuel, hf with
                        | fuel + 1, hf =>
                          have hlen : (escString s).length < fuel := by simp at hf; omega
                          rw [toHex4, toHex4]
                          simp only [List.cons_append, List.nil_append, List.append_assoc]
                          rw [parseJStrAux_back]
                          rw [readEsc_u_pair
                            (hex4_toHex4 (55296 + (c.toNat - 65536) / 1024) (by omega))
                            (by omega) (by omega)
                            (hex4_toHex4 (56320 + (c.toNat - 65536) % 1024) (by omega))
                            (by omega) (by omega)]
                          simp [ih fuel rest hlen, Char.ofNat_toNat]
                          rw [show 65536 + (c.toNat - 65536) / 1024 * 1024 +
                              (c.toNat - 65536) % 1024 = c.toNat from by omega]
                          rw [Char.ofNat_toNat]

theorem parseJString_esc (s rest : List Char) :
    parseJString (escString s ++ quoteChar :: rest) = some (s, rest) := by
  rw [parseJString]
  exact parseJStrAux_esc s _ rest (by simp)

/-- The list does not start with a decimal digit (so a digit run stops there). -/
def noDigitHead : List Char → Prop
  | [] => True
  | c :: _ => isDigitChar c = false

/-- The numeric value accumulated by `digitsLoop` over a digit list. -/
def digsVal : List Char → Nat → Nat
  | [], a => a
  | c :: l, a => digsVal l (a * 10 + (c.toNat - 48))

theorem digitCharVal : ∀ d, d < 10 → (Char.ofNat (48 + d)).toNat = 48 + d := by decide

theorem natDec_digits (n : Nat) : ∀ c ∈ natDec n, isDigitChar c = true := by
  induction n using Nat.strong_induction_on with
  | _ n ih =>
    by_cases h : n < 10
    · rw [natDec, if_pos h]
      intro c hc
      simp at hc
      subst hc
      simp [isDigitChar, digitCharVal n h]
      omega
    · rw [natDec, if_neg h]
      intro c hc
      rcases List.mem_append.mp hc with hc | hc
      · exact ih (n / 10) (Nat.div_lt_self (by omega) (by omega)) c hc
      · simp at hc
        subst hc
        simp [isDigitChar, digitCharVal (n % 10) (by omega)]
        omega

theorem natDec_ne_nil (n : Nat) : natDec n ≠ [] := by
  rw [natDec]
  by_cases h : n < 10
  · simp [h]
  · simp [h]

theorem digsVal_append (l1 l2 : List Char) : ∀ a, digsVal (l1 ++ l2) a = digsVal l2 (digsVal l1 a) := by
  induction l1 with
  | nil => intro a; rfl
  | cons c l ih => intro a; rw [List.cons_append, digsVal, digsVal, ih]

theorem digsVal_natDec (n : Nat) : ∀ a, digsVal (natDec n) a = a * 10 ^ (natDec n).length + n := by
  induction n using Nat.strong_induction_on with
  | _ n ih =>
    intro a
    by_cases h : n < 10
    · rw [natDec, if_pos h]
      simp [digsVal, digitCharVal n h]
    · rw [natDec, if_neg h]
      rw [digsVal_append]
      rw [ih (n / 10) (Nat.div_lt_self (by omega) (by omega)) a]
      show digsVal _ (_ * 10 + _) = _
      rw [digsVal]
      show (a * 10 ^ (natDec (n / 10)).length + n / 10) * 10 +
        ((Char.ofNat (48 + n % 10)).toNat - 48) = _
      rw [digitCharVal (n % 10) (by omega)]
      rw [List.length_append, List.length_singleton, pow_succ]
      have : n / 10 * 10 + (48 + n % 10 - 48) = n := by omega
      ring_nf
      omega

theorem digitsLoop_run (l1 : List Char) (hd : ∀ c ∈ l1, isDigitChar c = true) :
    ∀ l2 a, digitsLoop (l1 ++ l2) a = digitsLoop l2 (digsVal l1 a) := by
  induction l1 with
  | nil => intro l2 a; rfl
  | cons c l ih =>
    intro l2 a
    rw [List.cons_append, digitsLoop, if_pos (hd c (by simp)), digsVal]
    exact ih (fun x hx => hd x (by simp [hx])) l2 _

theorem digitsLoop_stop (l : List Char) (h : noDigitHead l) : ∀ a, digitsLoop l a = (a, l) := by
  intro a
  cases l with
  | nil => rfl
  | cons c t =>
    rw [digitsLoop, if_neg]
    rw [noDigitHead] at h
    simp [h]

theorem parseNat_natDec (n : Nat) (rest : List Char) (h : noDigitHead rest) :
    parseNat (natDec n ++ rest) = some (n, rest) := by
  have hd := natDec_digits n
  have hv := digsVal_natDec n
  rcases hnd : natDec n with _ | ⟨c, L⟩
  · exact absurd hnd (natDec_ne_nil n)
  · rw [hnd] at hd hv
    rw [List.cons_append, parseNat, if_pos (hd c (by simp))]
    rw [digitsLoop_run L (fun x hx => hd x (by simp [hx])) rest _]
    rw [digitsLoop_stop rest h]
    have := hv 0
    rw [digsVal] at this
    simp at this
    rw [this]

/-! Fuel measures for the value parser: `measJ v` bounds the parser fuel
consumed while reading `dumps v`. -/

mutual

def measJ : Json → Nat
  | .null => 1
  | .bool _ => 1
  | .num _ => 1
  | .str _ => 1
  | .arr items => 1 + measItems items
  | .obj pairs => 1 + measPairs pairs

def measItems : List Json → Nat
  | [] => 1
  | x :: xs => 1 + measJ x + measItemsTail xs

def measItemsTail : List Json → Nat
  | [] => 1
  | x :: xs => 1 + measJ x + measItemsTail xs

def measPairs : List (List Char × Json) → Nat
  | [] => 1
  | kv :: kvs => 2 + measJ kv.2 + measPairsTail kvs

def measPairsTail : List (List Char × Json) → Nat
  | [] => 1
  | kv :: kvs => 2 + measJ kv.2 + measPairsTail kvs

end

theorem measJ_pos (v : Json) : 1 ≤ measJ v := by
  cases v <;> simp [measJ]

theorem measItems_pos (xs : List Json) : 1 ≤ measItems xs := by
  cases xs <;> simp [measItems] <;> omega

theorem measItemsTail_pos (xs : List Json) : 1 ≤ measItemsTail xs := by
  cases xs <;> simp [measItemsTail] <;> omega

theorem measPairs_pos (kvs : List (List Char × Json)) : 1 ≤ measPairs kvs := by
  cases kvs <;> simp [measPairs] <;> omega

theorem measPairsTail_pos (kvs : List (List Char × Json)) : 1 ≤ measPairsTail kvs := by
  cases kvs <;> simp [measPairsTail] <;> omega

/-- The first character of a rendered natural number is a digit. -/
theorem natDec_head (n : Nat) :
    ∃ c t, natDec n = c :: t ∧ 48 ≤ c.toNat ∧ c.toNat ≤ 57 := by
  rcases hnd : natDec n with _ | ⟨c, t⟩
  · exact absurd hnd (natDec_ne_nil n)
  · refine ⟨c, t, rfl, ?_⟩
    have := natDec_digits n c (by rw [hnd]; simp)
    simpa [isDigitChar] using this

/-- The first character of any `dumps` rendering: a quote, bracket, brace,
`t`, `f`, `n`, minus sign, or digit. -/
theorem dumps_head (v : Json) :
    ∃ c t, dumps v = c :: t ∧
      (c.toNat = 34 ∨ c.toNat = 91 ∨ c.toNat = 123 ∨ c.toNat = 116 ∨
        c.toNat = 102 ∨ c.toNat = 110 ∨ c.toNat = 45 ∨
        (48 ≤ c.toNat ∧ c.toNat ≤ 57)) := by
  cases v with
  | null => exact ⟨'n', _, rfl, by simp⟩
  | bool b =>
    cases b with
    | true => exact ⟨'t', _, rfl, by simp⟩
    | false => exact ⟨'f', _, rfl, by simp⟩
  | num i =>
    show ∃ c t, intDec i = c :: t ∧ _
    rw [intDec]
    by_cases h : i < 0
    · exact ⟨'-', _, by rw [if_pos h], by simp⟩
    · obtain ⟨c, t, hct, hc⟩ := natDec_head i.toNat
      exact ⟨c, t, by rw [if_neg h, hct], by omega⟩
  | str s => exact ⟨quoteChar, _, rfl, by decide⟩
  | arr items => exact ⟨lbrackChar, _, rfl, by decide⟩
  | obj pairs => exact ⟨lbraceChar, _, rfl, by decide⟩

theorem skipWs_cons {c : Char} (h : isWsChar c = false) (l : List Char) :
    skipWs (c :: l) = c :: l := by
  rw [skipWs, h]
  rfl

/-- Lemma: `skipWs` does not move past the first character of a rendered value. -/
theorem skipWs_dumps (v : Json) (rest : List Char) :
    skipWs (dumps v ++ rest) = dumps v ++ rest := by
  obtain ⟨c, t, hct, hc⟩ := dumps_head v
  rw [hct, List.cons_append, skipWs_cons (by simp [isWsChar]; omega)]

theorem parseVal_space (fuel : Nat) (l : List Char) :
    parseVal fuel (' ' :: l) = parseVal fuel l := by
  cases fuel with
  | zero => rfl
  | succ g =>
    have h : skipWs (' ' :: l) = skipWs l := by rw [skipWs, if_pos (by decide)]
    have h2 : ∀ m, parseVal (m + 1) l =
        (match skipWs l with
         | [] => none
         | c :: r =>
           if c = quoteChar then
             match parseJString r with
             | some (s, r2) => some (.str s, r2)
             | none => none
           else if c = lbrackChar then
             match parseArrBody m r with
             | some (items, r2) => some (.arr items, r2)
             | none => none
           else if c = lbraceChar then
             match parseObjBody m r with
             | some (pairs, r2) => some (.obj pairs, r2)
             | none => none
           else if c = 't' then
             match r with
             | 'r' :: 'u' :: 'e' :: r2 => some (.bool true, r2)
             | _ => none
           else if c = 'f' then
             match r with
             | 'a' :: 'l' :: 's' :: 'e' :: r2 => some (.bool false, r2)
             | _ => none
           else if c = 'n' then
             match r with
             | 'u' :: 'l' :: 'l' :: r2 => some (.null, r2)
             | _ => none
           else if c = '-' then
             match parseNat r with
             | some (n, r2) => some (.num (-(n : Int)), r2)
             | none => none
           else if isDigitChar c then
             match parseNat (c :: r) with
             | some (n, r2) => some (.num (n : Int), r2)
             | none => none
           else none) := fun _ => rfl
    rw [parseVal, h, ← h2 g]

theorem skipWs_idem (l : List Char) : skipWs (skipWs l) = skipWs l := by
  induction l with
  | nil => rfl
  | cons c t ih =>
    by_cases h : isWsChar c = true
    · rw [skipWs, if_pos h, ih]
    · rw [skipWs, if_neg h, skipWs, if_neg h]

/-- The continuation following an array item never starts with a digit. -/
theorem ndh_items (xs : List Json) (rest : List Char) :
    noDigitHead (encItemsTail xs ++ rbrackChar :: rest) := by
  cases xs with
  | nil =>
    show isDigitChar rbrackChar = false
    decide
  | cons x t =>
    show isDigitChar ',' = false
    decide

/-- The continuation following an object value never starts with a digit. -/
theorem ndh_pairs (kvs : List (List Char × Json)) (rest : List Char) :
    noDigitHead (encPairsTail kvs ++ rbraceChar :: rest) := by
  cases kvs with
  | nil =>
    show isDigitChar rbraceChar = false
    decide
  | cons kv t =>
    show isDigitChar ',' = false
    decide

/-! One-step unfolding lemmas for the fueled parsers. -/

theorem pv_step (m : Nat) (l : List Char) :
    parseVal (m + 1) l =
      (match skipWs l with
       | [] => none
       | c :: r =>
         if c = quoteChar then
           match parseJString r with
           | some (s, r2) => some (.str s, r2)
           | none => none
         else if c = lbrackChar then
           match parseArrBody m r with
           | some (items, r2) => some (.arr items, r2)
           | none => none
         else if c = lbraceChar then
           match parseObjBody m r with
           | some (pairs, r2) => some (.obj pairs, r2)
           | none => none
         else if c = 't' then
           match r with
           | 'r' :: 'u' :: 'e' :: r2 => some (.bool true, r2)
           | _ => none
         else if c = 'f' then
           match r with
           | 'a' :: 'l' :: 's' :: 'e' :: r2 => some (.bool false, r2)
           | _ => none
         else if c = 'n' then
           match r with
           | 'u' :: 'l' :: 'l' :: r2 => some (.null, r2)
           | _ => none
         else if c = '-' then
           match parseNat r with
           | some (n, r2) => some (.num (-(n : Int)), r2)
           | none => none
         else if isDigitChar c then
           match parseNat (c :: r) with
           | some (n, r2) => some (.num (n : Int), r2)
           | none => none
         else none) := rfl

theorem pv_null (m : Nat) (l : List Char) :
    parseVal (m + 1) ('n' :: 'u' :: 'l' :: 'l' :: l) = some (.null, l) := rfl

theorem pv_true (m : Nat) (l : List Char) :
    parseVal (m + 1) ('t' :: 'r' :: 'u' :: 'e' :: l) = some (.bool true, l) := rfl

theorem pv_false (m : Nat) (l : List Char) :
    parseVal (m + 1) ('f' :: 'a' :: 'l' :: 's' :: 'e' :: l) = some (.bool false, l) := rfl

theorem pv_quote (m : Nat) (l : List Char) :
    parseVal (m + 1) (quoteChar :: l) =
      match parseJString l with
      | some (s, r2) => some (.str s, r2)
      | none => none := rfl

theorem pv_lbrack (m : Nat) (l : List Char) :
    parseVal (m + 1) (lbrackChar :: l) =
      match parseArrBody m l with
      | some (items, r2) => some (.arr items, r2)
      | none => none := rfl

theorem pv_lbrace (m : Nat) (l : List Char) :
    parseVal (m + 1) (lbraceChar :: l) =
      match parseObjBody m l with
      | some (pairs, r2) => some (.obj pairs, r2)
      | none => none := rfl

theorem pv_minus (m : Nat) (l : List Char) :
    parseVal (m + 1) ('-' :: l) =
      match parseNat l with
      | some (n, r2) => some (.num (-(n : Int)), r2)
      | none => none := rfl

theorem pv_num (m : Nat) {c : Char} (hdig : isDigitChar c = true) (r : List Char) :
    parseVal (m + 1) (c :: r) =
      match parseNat (c :: r) with
      | some (n, r2) => some (Json.num (n : Int), r2)
      | none => none := by
  have hb : 48 ≤ c.toNat ∧ c.toNat ≤ 57 := by
    have := hdig
    simp [isDigitChar] at this
    exact this
  have hws : isWsChar c = false := by simp [isWsChar]; omega
  have hq : quoteChar.toNat = 34 := by decide
  have hlk : lbrackChar.toNat = 91 := by decide
  have hlc : lbraceChar.toNat = 123 := by decide
  have hct : ('t').toNat = 116 := by decide
  have hcf : ('f').toNat = 102 := by decide
  have hcn : ('n').toNat = 110 := by decide
  have hcm : ('-').toNat = 45 := by decide
  rw [pv_step, skipWs_cons hws]
  simp only []
  rw [if_neg (fun h => by rw [char_eq_iff_toNat, hq] at h; omega),
    if_neg (fun h => by rw [char_eq_iff_toNat, hlk] at h; omega),
    if_neg (fun h => by rw [char_eq_iff_toNat, hlc] at h; omega),
    if_neg (fun h => by rw [char_eq_iff_toNat, hct] at h; omega),
    if_neg (fun h => by rw [char_eq_iff_toNat, hcf] at h; omega),
    if_neg (fun h => by rw [char_eq_iff_toNat, hcn] at h; omega),
    if_neg (fun h => by rw [char_eq_iff_toNat, hcm] at h; omega),
    if_pos hdig]

theorem pab_step (m : Nat) (l : List Char) :
    parseArrBody (m + 1) l =
      (match skipWs l with
       | [] => none
       | c :: r =>
         if c = rbrackChar then some ([], r)
         else
           match parseVal m (c :: r) with
           | none => none
           | some (v, r2) =>
             match parseArrTail m r2 with
             | none => none
             | some (vs, r3) => some (v :: vs, r3)) := rfl

theorem pab_rb (m : Nat) (rest : List Char) :
    parseArrBody (m + 1) (rbrackChar :: rest) = some ([], rest) := rfl

theorem pab_cons {c : Char} (hws : isWsChar c = false) (hnrb : ¬ c = rbrackChar)
    (m : Nat) (r : List Char) :
    parseArrBody (m + 1) (c :: r) =
      match parseVal m (c :: r) with
      | none => none
      | some (v, r2) =>
        match parseArrTail m r2 with
        | none => none
        | some (vs, r3) => some (v :: vs, r3) := by
  rw [pab_step, skipWs_cons hws]
  simp only []
  rw [if_neg hnrb]

theorem pat_rb (m : Nat) (rest : List Char) :
    parseArrTail (m + 1) (rbrackChar :: rest) = some ([], rest) := rfl

theorem pat_comma (m : Nat) (r : List Char) :
    parseArrTail (m + 1) (',' :: r) =
      match parseVal m r with
      | none => none
      | some (v, r2) =>
        match parseArrTail m r2 with
        | none => none
        | some (vs, r3) => some (v :: vs, r3) := rfl

theorem ppair_quote (m : Nat) (r : List Char) :
    parsePair (m + 1) (quoteChar :: r) =
      match parseJString r with
      | none => none
      | some (k, r2) =>
        match skipWs r2 with
        | ':' :: r3 =>
          match parseVal m r3 with
          | none => none
          | some (v, r4) => some ((k, v), r4)
        | _ => none := rfl

theorem pob_rb (m : Nat) (rest : List Char) :
    parseObjBody (m + 1) (rbraceChar :: rest) = some ([], rest) := rfl

theorem pob_quote (m : Nat) (r : List Char) :
    parseObjBody (m + 1) (quoteChar :: r) =
      match parsePair m (quoteChar :: r) with
      | none => none
      | some (kv, r2) =>
        match parseObjTail m r2 with
        | none => none
        | some (kvs, r3) => some (kv :: kvs, r3) := rfl

theorem pot_rb (m : Nat) (rest : List Char) :
    parseObjTail (m + 1) (rbraceChar :: rest) = some ([], rest) := rfl

theorem pot_comma (m : Nat) (r : List Char) :
    parseObjTail (m + 1) (',' :: r) =
      match parsePair m r with
      | none => none
      | some (kv, r2) =>
        match parseObjTail m r2 with
        | none => none
        | some (kvs, r3) => some (kv :: kvs, r3) := rfl

theorem parsePair_space (fuel : Nat) (l : List Char) :
    parsePair fuel (' ' :: l) = parsePair fuel l := by
  cases fuel with
  | zero => rfl
  | succ m =>
    have h : skipWs (' ' :: l) = skipWs l := by rw [skipWs, if_pos (by decide)]
    have h2 : ∀ k, parsePair (k + 1) l =
        (match skipWs l with
         | [] => none
         | c :: r =>
           if c = quoteChar then
             match parseJString r with
             | none => none
             | some (kk, r2) =>
               match skipWs r2 with
               | ':' :: r3 =>
                 match parseVal k r3 with
                 | none => none
                 | some (v, r4) => some ((kk, v), r4)
               | _ => none
           else none) := fun _ => rfl
    rw [parsePair, h, ← h2 m]

/-- The serializer/parser round trip, by induction on the parser fuel: with
enough fuel, each parser reads back exactly the value whose rendering it is
given, leaving the continuation untouched. -/
theorem parse_dumps_all (fuel : Nat) :
    (∀ v rest, measJ v ≤ fuel → noDigitHead rest →
      parseVal fuel (dumps v ++ rest) = some (v, rest)) ∧
    (∀ xs rest, measItems xs ≤ fuel →
      parseArrBody fuel (encItems xs ++ rbrackChar :: rest) = some (xs, rest)) ∧
    (∀ xs rest, measItemsTail xs ≤ fuel →
      parseArrTail fuel (encItemsTail xs ++ rbrackChar :: rest) = some (xs, rest)) ∧
    (∀ k v rest, 1 + measJ v ≤ fuel → noDigitHead rest →
      parsePair fuel
        (quoteChar :: (escString k ++ (quoteChar :: (':' :: (' ' :: (dumps v ++ rest)))))) =
      some ((k, v), rest)) ∧
    (∀ kvs rest, measPairs kvs ≤ fuel →
      parseObjBody fuel (encPairs kvs ++ rbraceChar :: rest) = some (kvs, rest)) ∧
    (∀ kvs rest, measPairsTail kvs ≤ fuel →
      parseObjTail fuel (encPairsTail kvs ++ rbraceChar :: rest) = some (kvs, rest)) := by
  induction fuel with
  | zero =>
    refine ⟨?_, ?_, ?_, ?_, ?_, ?_⟩
    · intro v rest hm _
      exact absurd hm (by have := measJ_pos v; omega)
    · intro xs rest hm
      exact absurd hm (by have := measItems_pos xs; omega)
    · intro xs rest hm
      exact absurd hm (by have := measItemsTail_pos xs; omega)
    · intro k v rest hm _
      exact absurd hm (by omega)
    · intro kvs rest hm
      exact absurd hm (by have := measPairs_pos kvs; omega)
    · intro kvs rest hm
      exact absurd hm (by have := measPairsTail_pos kvs; omega)
  | succ g ih =>
    obtain ⟨ihV, ihAB, ihAT, ihPair, ihOB, ihOT⟩ := ih
    refine ⟨?_, ?_, ?_, ?_, ?_, ?_⟩
    · -- parseVal
      intro v rest hm hnd
      cases v with
      | null => exact pv_null g rest
      | bool b => cases b with
        | true => exact pv_true g rest
        | false => exact pv_false g rest
      | num i =>
        show parseVal (g + 1) (intDec i ++ rest) = _
        rw [intDec]
        by_cases hi : i < 0
        · rw [if_pos hi]
          rw [List.cons_append, pv_minus, parseNat_natDec i.natAbs rest hnd]
          simp only []
          have : -((i.natAbs : Nat) : Int) = i := by omega
          rw [this]
        · rw [if_neg hi]
          obtain ⟨c, ct, hct, hc⟩ := natDec_head i.toNat
          rw [hct, List.cons_append, pv_num g (by simp [isDigitChar]; omega)]
          rw [← List.cons_append, ← hct, parseNat_natDec i.toNat rest hnd]
          simp only []
          have : ((i.toNat : Nat) : Int) = i := by omega
          rw [this]
      | str s =>
        simp only [dumps, dumpString, List.cons_append, List.append_assoc,
          List.singleton_append, List.nil_append]
        rw [pv_quote, parseJString_esc]
      | arr items =>
        have hm2 : measItems items ≤ g := by
          have : measJ (.arr items) = 1 + measItems items := rfl
          omega
        simp only [dumps, List.cons_append, List.append_assoc, List.singleton_append,
          List.nil_append]
        rw [pv_lbrack, ihAB items rest hm2]
      | obj pairs =>
        have hm2 : measPairs pairs ≤ g := by
          have : measJ (.obj pairs) = 1 + measPairs pairs := rfl
          omega
        simp only [dumps, List.cons_append, List.append_assoc, List.singleton_append,
          List.nil_append]
        rw [pv_lbrace, ihOB pairs rest hm2]
    · -- parseArrBody
      intro xs rest hm
      cases xs with
      | nil => exact pab_rb g rest
      | cons x t =>
        have hmx : measJ x ≤ g := by
          have h1 : measItems (x :: t) = 1 + measJ x + measItemsTail t := rfl
          have h2 := measItemsTail_pos t
          omega
        have hmt : measItemsTail t ≤ g := by
          have h1 : measItems (x :: t) = 1 + measJ x + measItemsTail t := rfl
          have h2 := measJ_pos x
          omega
        obtain ⟨c, ct, hct, hc⟩ := dumps_head x
        simp only [encItems, List.append_assoc]
        rw [hct, List.cons_append]
        rw [pab_cons (by simp [isWsChar]; omega)
          (fun h => by
            rw [char_eq_iff_toNat, show rbrackChar.toNat = 93 from by decide] at h
            omega)]
        rw [← List.cons_append, ← hct]
        rw [ihV x _ hmx (ndh_items t rest)]
        simp only []
        rw [ihAT t rest hmt]
    · -- parseArrTail
      intro xs rest hm
      cases xs with
      | nil => exact pat_rb g rest
      | cons x t =>
        have hmx : measJ x ≤ g := by
          have h1 : measItemsTail (x :: t) = 1 + measJ x + measItemsTail t := rfl
          have h2 := measItemsTail_pos t
          omega
        have hmt : measItemsTail t ≤ g := by
          have h1 : measItemsTail (x :: t) = 1 + measJ x + measItemsTail t := rfl
          have h2 := measJ_pos x
          omega
        simp only [encItemsTail, List.cons_append, List.append_assoc]
        rw [pat_comma, parseVal_space]
        rw [ihV x _ hmx (ndh_items t rest)]
        simp only []
        rw [ihAT t rest hmt]
    · -- parsePair
      intro k v rest hm hnd
      have hmv : measJ v ≤ g := by omega
      rw [ppair_quote, parseJString_esc]
      simp only []
      rw [skipWs_cons (by decide)]
      simp only []
      rw [parseVal_space, ihV v rest hmv hnd]
    · -- parseObjBody
      intro kvs rest hm
      cases kvs with
      | nil => exact pob_rb g rest
      | cons kv t =>
        have hmv : 1 + measJ kv.2 ≤ g := by
          have h1 : measPairs (kv :: t) = 2 + measJ kv.2 + measPairsTail t := rfl
          have h2 := measPairsTail_pos t
          omega
        have hmt : measPairsTail t ≤ g := by
          have h1 : measPairs (kv :: t) = 2 + measJ kv.2 + measPairsTail t := rfl
          have h2 := measJ_pos kv.2
          omega
        simp only [encPairs, dumpString, List.cons_append, List.append_assoc,
          List.singleton_append, List.nil_append]
        rw [pob_quote]
        rw [ihPair kv.1 kv.2 _ hmv (ndh_pairs t rest)]
        simp only []
        rw [ihOT t rest hmt]
    · -- parseObjTail
      intro kvs rest hm
      cases kvs with
      | nil => exact pot_rb g rest
      | cons kv t =>
        have hmv : 1 + measJ kv.2 ≤ g := by
          have h1 : measPairsTail (kv :: t) = 2 + measJ kv.2 + measPairsTail t := rfl
          have h2 := measPairsTail_pos t
          omega
        have hmt : measPairsTail t ≤ g := by
          have h1 : measPairsTail (kv :: t) = 2 + measJ kv.2 + measPairsTail t := rfl
          have h2 := measJ_pos kv.2
          omega
        simp only [encPairsTail, dumpString, List.cons_append, List.append_assoc,
          List.singleton_append, List.nil_append]
        rw [pot_comma, parsePair_space]
        rw [ihPair kv.1 kv.2 _ hmv (ndh_pairs t rest)]
        simp only []
        rw [ihOT t rest hmt]

/-! The parser fuel used by `loads` dominates the measure of the value
whose rendering is being read. -/

mutual

theorem measJ_le : ∀ v : Json, measJ v ≤ 2 * (dumps v).length + 1
  | .null => by simp [measJ, dumps]
  | .bool b => by cases b <;> simp [measJ, dumps]
  | .num i => by
    have : 1 ≤ 2 * (dumps (.num i)).length + 1 := by omega
    simpa [measJ] using this
  | .str s => by
    have : 1 ≤ 2 * (dumps (.str s)).length + 1 := by omega
    simpa [measJ] using this
  | .arr xs => by
    have hb := measItems_le xs
    have h1 : measJ (.arr xs) = 1 + measItems xs := rfl
    have h2 : (dumps (.arr xs)).length = (encItems xs).length + 2 := by
      show (lbrackChar :: (encItems xs ++ [rbrackChar])).length = _
      simp
    omega
  | .obj kvs => by
    have hb := measPairs_le kvs
    have h1 : measJ (.obj kvs) = 1 + measPairs kvs := rfl
    have h2 : (dumps (.obj kvs)).length = (encPairs kvs).length + 2 := by
      show (lbraceChar :: (encPairs kvs ++ [rbraceChar])).length = _
      simp
    omega

theorem measItems_le : ∀ xs : List Json, measItems xs ≤ 2 * (encItems xs).length + 4
  | [] => by simp [measItems, encItems]
  | x :: t => by
    have h1 := measJ_le x
    have h2 := measItemsTail_le t
    have h3 : measItems (x :: t) = 1 + measJ x + measItemsTail t := rfl
    have h4 : (encItems (x :: t)).length = (dumps x).length + (encItemsTail t).length := by
      show (dumps x ++ encItemsTail t).length = _
      simp
    omega

theorem measItemsTail_le : ∀ xs : List Json, measItemsTail xs ≤ 2 * (encItemsTail xs).length + 2
  | [] => by simp [measItemsTail, encItemsTail]
  | x :: t => by
    have h1 := measJ_le x
    have h2 := measItemsTail_le t
    have h3 : measItemsTail (x :: t) = 1 + measJ x + measItemsTail t := rfl
    have h4 : (encItemsTail (x :: t)).length =
        2 + (dumps x).length + (encItemsTail t).length := by
      show (',' :: ' ' :: (dumps x ++ encItemsTail t)).length = _
      simp
      omega
    omega

theorem measPairs_le :
    ∀ kvs : List (List Char × Json), measPairs kvs ≤ 2 * (encPairs kvs).length + 4
  | [] => by simp [measPairs, encPairs]
  | kv :: t => by
    have h1 := measJ_le kv.2
    have h2 := measPairsTail_le t
    have h3 : measPairs (kv :: t) = 2 + measJ kv.2 + measPairsTail t := rfl
    have h4 : (encPairs (kv :: t)).length =
        (dumpString kv.1).length + 2 + (dumps kv.2).length + (encPairsTail t).length := by
      simp [encPairs]
      omega
    omega

theorem measPairsTail_le :
    ∀ kvs : List (List Char × Json), measPairsTail kvs ≤ 2 * (encPairsTail kvs).length + 2
  | [] => by simp [measPairsTail, encPairsTail]
  | kv :: t => by
    have h1 := measJ_le kv.2
    have h2 := measPairsTail_le t
    have h3 : measPairsTail (kv :: t) = 2 + measJ kv.2 + measPairsTail t := rfl
    have h4 : (encPairsTail (kv :: t)).length =
        2 + (dumpString kv.1).length + 2 + (dumps kv.2).length + (encPairsTail t).length := by
      simp [encPairsTail]
      omega
    omega

end

/-- Decoding inverts encoding: `json.loads` applied to a `json.dumps`
rendering recovers exactly the original value. -/
theorem loads_dumps (v : Json) : loads (dumps v) = some v := by
  have h := (parse_dumps_all (2 * (dumps v).length + 1)).1 v []
    (by have := measJ_le v; omega) trivial
  rw [List.append_nil] at h
  simp only [loads]
  rw [h]
  rfl

/-! ## Protocol frames (spec section 6, built by the source client)

The wire frames of the Apollo `graphql-ws` handshake:
`_conn_init` sends `{"type": "connection_init", "payload": {"headers": ...}}`,
`_start` sends `{"id": ..., "type": "start", "payload": ...}`,
`_stop` sends `{"id": ..., "type": "stop"}`, and the server replies carry
`{"id": ..., "type": "data"|"error"|"complete", "payload": ...}` plus
periodic `{"type": "ka"}` keepalives. -/

def typeKey : List Char := "type".data

def idKey : List Char := "id".data

def payloadKey : List Char := "payload".data

def headersKey : List Char := "headers".data

def queryKey : List Char := "query".data

def variablesKey : List Char := "variables".data

def kaLit : List Char := "ka".data

def errorLit : List Char := "error".data

def completeLit : List Char := "complete".data

def dataLit : List Char := "data".data

def startLit : List Char := "start".data

def stopLit : List Char := "stop".data

def connInitLit : List Char := "connection_init".data

/-- The frame dict sent by `_conn_init`. -/
def connInitJson (headers : Json) : Json :=
  .obj [(typeKey, .str connInitLit), (payloadKey, .obj [(headersKey, headers)])]

/-- The frame dict sent by `_start`. -/
def startJson (_id : List Char) (payload : Json) : Json :=
  .obj [(idKey, .str _id), (typeKey, .str startLit), (payloadKey, payload)]

/-- The frame dict sent by `_stop`. -/
def stopJson (_id : List Char) : Json :=
  .obj [(idKey, .str _id), (typeKey, .str stopLit)]

/-- The operation payload built by `query`/`subscribe`:
`{'headers': headers, 'query': query, 'variables': variables}`. -/
def queryPayload (headers : Json) (q : List Char) (vars : Json) : Json :=
  .obj [(headersKey, headers), (queryKey, .str q), (variablesKey, vars)]

/-- A server reply frame `{"id": ..., "type": ..., "payload": ...}`. -/
def replyJson (_id : List Char) (ty : List Char) (payload : Json) : Json :=
  .obj [(idKey, .str _id), (typeKey, .str ty), (payloadKey, payload)]

/-- The keepalive frame `{"type": "ka"}`. -/
def kaJson : Json := .obj [(typeKey, .str kaLit)]

/-- Every §6 frame shape, with its variable parts quantified. -/
inductive Frame where
  | connectionInit (headers : Json)
  | start (_id : List Char) (payload : Json)
  | stop (_id : List Char)
  | data (_id : List Char) (payload : Json)
  | error (_id : List Char) (payload : Json)
  | complete (_id : List Char) (payload : Json)
  | ka

/-- The wire dict of each §6 frame shape. -/
def frameJson : Frame → Json
  | .connectionInit headers => connInitJson headers
  | .start _id payload => startJson _id payload
  | .stop _id => stopJson _id
  | .data _id payload => replyJson _id dataLit payload
  | .error _id payload => replyJson _id errorLit payload
  | .complete _id payload => replyJson _id completeLit payload
  | .ka => kaJson

/-- Python dict lookup `r[k]` on a decoded frame: `none` models the uncaught
`TypeError`/`KeyError` when the decoded value is not a dict or lacks the
key.  On duplicate keys the later entry wins, as in a dict built by
`json.loads`. -/
def jGet (r : Json) (k : List Char) : Option Json :=
  match r with
  | .obj kvs => kvs.foldl (fun acc kv => if kv.1 = k then some kv.2 else acc) none
  | _ => none

/-- Python `==` between a decoded JSON value and a string literal: true only
for the equal string, false for every other value or string. -/
def isStrEq (t : Json) (lit : List Char) : Bool :=
  match t with
  | .str s => decide (s = lit)
  | _ => false

/-! ## `SubscriptionGraphQLClient._on_message` (source lines 84-88)

The default message handler: decode, and print every message whose type is
not `ka`.  The result is the list of printed messages; `none` models the
uncaught exception when the message does not decode or has no `type`. -/

def on_message (message : List Char) : Option (List (List Char)) :=
  match loads message with
  | none => none
  | some d =>
    match jGet d typeKey with
    | none => none
    | some t => some (if isStrEq t kaLit = false then [message] else [])

/-! ## The delivery loop `subs` (source lines 123-133)

`subs` runs in the spawned thread: while the session-wide
`_subscription_running` flag holds, it blocks on `recv`, decodes the
message, and dispatches: `error`/`complete` frames are printed and routed to
`stop_subscribe`, `ka` frames are skipped, anything else is handed to the
callback as `_cc(_id, r)`.

The loop body's `self.stop_subscribe(_id)` runs `self._st_id.join()` on the
very thread that is executing `subs`; `threading.Thread.join` raises
`RuntimeError` ("cannot join current thread") there, so the loop thread dies
by exception before `_stop(_id)` can send anything — recorded as the
`.joinCrashed` exit with an empty `sentStops` trace.

The model consumes the incoming wire messages as a list (each `recv`
returns the next one; an exhausted list models a receive that blocks
forever) and records the callback invocations in order, which is all the
loop does with the callback. -/

inductive LoopExit where
  | blocked
  | crashed
  | joinCrashed
deriving DecidableEq

structure LoopResult where
  calls : List (List Char × Json)
  printed : List Json
  sentStops : List (List Char)
  running : Bool
  leftover : List (List Char)
  exit : LoopExit
deriving DecidableEq

def subsRun (_id : List Char) (msgs : List (List Char)) : LoopResult :=
  match msgs with
  | [] => ⟨[], [], [], true, [], .blocked⟩
  | m :: rest =>
    match loads m with
    | none => ⟨[], [], [], true, rest, .crashed⟩
    | some r =>
      match jGet r typeKey with
      | none => ⟨[], [], [], true, rest, .crashed⟩
      | some t =>
        if isStrEq t errorLit || isStrEq t completeLit then
          ⟨[], [r], [], false, rest, .joinCrashed⟩
        else if isStrEq t kaLit = false then
          let res := subsRun _id rest
          ⟨(_id, r) :: res.calls, res.printed, res.sentStops, res.running,
            res.leftover, res.exit⟩
        else
          subsRun _id rest

/-! ## The websocket control path (source lines 90-115)

`_conn_init`, `_start`, `_stop` and `query` run synchronously on the calling
thread.  The connection is modelled by the list of incoming messages still
to be received and the trace of messages sent; `gen_id`'s randomness is
modelled by an oracle stream `ids` indexed by how many identifiers have been
drawn so far. -/

structure WSState where
  incoming : List (List Char)
  sent : List (List Char)
  ids : Nat → List Char
  idIdx : Nat

def sendMsg (s : WSState) (m : List Char) : WSState :=
  {s with sent := s.sent ++ [m]}

/-- Model of `self._conn.recv()`: take the next incoming message; `none` models a
receive that blocks forever. -/
def recvMsg (s : WSState) : Option (List Char × WSState) :=
  match s.incoming with
  | [] => none
  | m :: r => some (m, {s with incoming := r})

/-- Model of `_conn_init`: send the `connection_init` frame, then one blocking
receive whose content is discarded (source lines 90-96). -/
def conn_init (s : WSState) (headers : Json) : Option WSState := do
  let s := sendMsg s (dumps (connInitJson headers))
  let (_, s) ← recvMsg s
  some s

/-- Model of `_start`: generate a fresh id, send the `start` frame, return the id
(source lines 98-102). -/
def startOp (s : WSState) (payload : Json) : List Char × WSState :=
  let _id := s.ids s.idIdx
  let s := {s with idIdx := s.idIdx + 1}
  (_id, sendMsg s (dumps (startJson _id payload)))

/-- Model of `_stop`: send the `stop` frame, then one blocking receive returned
verbatim (source lines 104-107). -/
def stopOp (s : WSState) (_id : List Char) : Option (List Char × WSState) := do
  let s := sendMsg s (dumps (stopJson _id))
  recvMsg s

/-- Model of `query`: `_conn_init`, `_start`, exactly one receive, `_stop`; returns
the raw text of that one receive (source lines 109-115). -/
def queryOp (s : WSState) (q : List Char) (vars headers : Json) :
    Option (List Char × WSState) := do
  let s ← conn_init s headers
  let (_id, s) := startOp s (queryPayload headers q vars)
  let (res, s) ← recvMsg s
  let (_, s) ← stopOp s _id
  some (res, s)

/-! ## The session registry (source lines 75-82, 117-142)

`__init__` stores one `_subscription_running` flag and one `_st_id` thread
reference on the session object — not a per-identifier table.  `subscribe`
overwrites `_st_id` with the newly spawned thread; `stop_subscribe(_id)`
clears the shared flag, joins whatever thread `_st_id` currently holds
(whichever identifier is passed), and only then sends a `stop` frame
carrying the given id and consumes one receive.

Threads are modelled by numeric identifiers drawn from `nextThread`; a join
is recorded in `joined`.  This models `stop_subscribe` as called from the
caller's thread (the loop's own internal call is covered by `subsRun`). -/

structure SubSession where
  ws : WSState
  subscriptionRunning : Bool
  stId : Option Nat
  nextThread : Nat
  joined : List Nat

/-- Model of `subscribe` minus the delivery loop's own execution: `_conn_init`,
`_start`, then spawn a thread and overwrite `self._st_id` with it
(source lines 117-137). -/
def subscribeOp (s : SubSession) (q : List Char) (vars headers : Json) :
    Option (List Char × SubSession) := do
  let ws ← conn_init s.ws headers
  let (_id, ws) := startOp ws (queryPayload headers q vars)
  let s2 : SubSession :=
    { s with ws := ws, stId := some s.nextThread, nextThread := s.nextThread + 1 }
  some (_id, s2)

/-- Model of `stop_subscribe` (source lines 139-142): clear the shared running flag,
join the stored thread (`none` models the `AttributeError` when `_st_id` is
still `None`), then `_stop(_id)`: send the stop frame and consume one
receive. -/
def stop_subscribe (s : SubSession) (_id : List Char) :
    Option (SubSession × List Char) := do
  let s := { s with subscriptionRunning := false }
  let t ← s.stId
  let s := { s with joined := s.joined ++ [t] }
  let ws := sendMsg s.ws (dumps (stopJson _id))
  let (reply, ws) ← recvMsg ws
  some ({ s with ws := ws }, reply)

/-! ## The HTTP request path `GraphQLClient._send` (source lines 25-61)

The session branch posts up to `number_of_trials = 3` times, breaking as
soon as `status_code == 200`, sleeping one second after each non-200
response, and finally returns `req.json()` of whichever response `req` last
holds — without inspecting its status.  Exceptions (a failing post or an
unparseable body) are printed and re-raised.

The sessionless branch does a one-shot `urllib.request.urlopen`, which
raises `HTTPError` for a non-2xx status; the handler prints the error body
and re-raises.  `Except.error` models an exception propagating to the
caller. -/

structure HResp where
  status : Nat
  body : List Char
deriving DecidableEq

inductive PostResult where
  | ok (r : HResp)
  | netFail

structure SendTrace where
  posts : Nat
  sleeps : Nat
  outcome : Except Unit Json

/-- The `for n in range(rem)` retry loop starting at attempt `k`: returns
posts performed, sleeps performed, and `none` when the range was empty,
otherwise the breaking/last response or the propagated exception. -/
def runTrials (post : Nat → PostResult) (k : Nat) :
    Nat → Nat × Nat × Option (Except Unit HResp)
  | 0 => (0, 0, none)
  | rem + 1 =>
    match post k with
    | .netFail => (1, 0, some (.error ()))
    | .ok r =>
      if r.status = 200 then (1, 0, some (.ok r))
      else
        match runTrials post (k + 1) rem with
        | (_, _, none) => (1, 1, some (.ok r))
        | (p, sl, some out) => (p + 1, sl + 1, some out)

def numberOfTrials : Nat := 3

/-- Model of `_send` with a session object supplied. -/
def sessionSend (post : Nat → PostResult) : SendTrace :=
  match runTrials post 0 numberOfTrials with
  | (p, sl, some (.ok r)) =>
    match loads r.body with
    | some j => ⟨p, sl, .ok j⟩
    | none => ⟨p, sl, .error ()⟩
  | (p, sl, some (.error _)) => ⟨p, sl, .error ()⟩
  | (p, sl, none) => ⟨p, sl, .error ()⟩

/-- Model of `_send` without a session: one `urlopen`, which raises for any non-2xx
status; a 2xx response's body is parsed with `json.loads`. -/
def plainSend (r : HResp) : Except Unit Json :=
  if 200 ≤ r.status ∧ r.status < 300 then
    match loads r.body with
    | some j => .ok j
    | none => .error ()
  else .error ()

/-! ## `gen_id` (source lines 149-150)

`gen_id(size, chars)` joins `size` outcomes of `random.choice(chars)`.
`random.choice` is modelled by an oracle stream of naturals reduced modulo
the alphabet length; it fails (`IndexError`) only on an empty alphabet. -/

def asciiLowercase : List Char := "abcdefghijklmnopqrstuvwxyz".data

def asciiUppercase : List Char := "ABCDEFGHIJKLMNOPQRSTUVWXYZ".data

def digitsChars : List Char := "0123456789".data

/-- Python `string.ascii_letters`: lowercase then uppercase. -/
def asciiLetters : List Char := asciiLowercase ++ asciiUppercase

/-- The default alphabet `string.ascii_letters + string.digits`. -/
def defaultIdChars : List Char := asciiLetters ++ digitsChars

/-- Model of `random.choice(chars)` with the random draw `r`. -/
def randomChoice (chars : List Char) (r : Nat) : Option Char :=
  chars.get? (r % chars.length)

/-- The generator expression `(random.choice(chars) for _ in range(size))`:
draw the remaining `k` characters, the next draw using stream position `i`. -/
def genChars (chars : List Char) (rand : Nat → Nat) : Nat → Nat → Option (List Char)
  | _, 0 => some []
  | i, k + 1 =>
    (randomChoice chars (rand i)).bind
      (fun c => (genChars chars rand (i + 1) k).map (fun s => c :: s))

def gen_id (size : Nat) (chars : List Char) (rand : Nat → Nat) :
    Option (List Char) :=
  genChars chars rand 0 size

/-! ## Frame field evaluation -/

theorem jGet_reply_type (i ty : List Char) (p : Json) :
    jGet (replyJson i ty p) typeKey = some (.str ty) := rfl

theorem jGet_reply_id (i ty : List Char) (p : Json) :
    jGet (replyJson i ty p) idKey = some (.str i) := rfl

theorem jGet_ka_type : jGet kaJson typeKey = some (.str kaLit) := rfl

/-- C9: for every frame shape of §6, decoding the encoding gives back the
original frame: the JSON serialization used on `send` (`json.dumps`) and
the JSON parsing used on `recv` (`json.loads`) are mutually inverse on all
protocol frames, whatever their ids, headers and payloads. -/
theorem claim9_frame_roundtrip (f : Frame) :
    loads (dumps (frameJson f)) = some (frameJson f) :=
  loads_dumps (frameJson f)

/-- C4: when the transport yields `data(id=X), ka, data(id=X), complete(id=X)`
(and whatever would come later), the delivery loop invokes the callback
exactly twice — once per `data` frame, in order — prints the terminal frame,
clears the running flag, and exits at the `complete` frame without consuming
anything further.  (The loop's exit is by the `RuntimeError` that
`stop_subscribe` raises when joining the current thread, so no stop frame is
sent; the claim's assertions — two callback invocations, exit after
`complete`, running flag false — all hold.) -/
theorem claim4_scenario (x : List Char) (p1 p2 p3 : Json) (tail : List (List Char)) :
    subsRun x (dumps (replyJson x dataLit p1) :: dumps kaJson ::
        dumps (replyJson x dataLit p2) :: dumps (replyJson x completeLit p3) :: tail) =
      ⟨[(x, replyJson x dataLit p1), (x, replyJson x dataLit p2)],
        [replyJson x completeLit p3], [], false, tail, .joinCrashed⟩ := by
  have n1 : ¬ (dataLit = errorLit) := by decide
  have n2 : ¬ (dataLit = completeLit) := by decide
  have n3 : ¬ (dataLit = kaLit) := by decide
  have n4 : ¬ (kaLit = errorLit) := by decide
  have n5 : ¬ (kaLit = completeLit) := by decide
  simp [subsRun, loads_dumps, jGet_reply_type, jGet_ka_type, isStrEq,
    n1, n2, n3, n4, n5]

/-- C5 (evaluating the code at the failing input): when the delivery loop
receives an `error` or `complete` frame it prints the frame, clears the
running flag, and exits — but the "internal stop bookkeeping" is cut short:
`stop_subscribe` raises `RuntimeError` joining the current thread, so no
`stop` frame for the identifier is ever sent (`sentStops = []`) and the
`_stop` receive never happens.  The claim's "performs the internal stop
bookkeeping for that identifier" is therefore not delivered by the code. -/
theorem claim5_terminal_no_stop_sent (x : List Char) (p : Json) (ty : List Char)
    (hty : ty = errorLit ∨ ty = completeLit) (tail : List (List Char)) :
    subsRun x (dumps (replyJson x ty p) :: tail) =
      ⟨[], [replyJson x ty p], [], false, tail, .joinCrashed⟩ := by
  rcases hty with h | h <;> subst h <;>
    simp [subsRun, loads_dumps, jGet_reply_type, isStrEq]

theorem claim5_witness :
    subsRun ['A'] [dumps (replyJson ['A'] completeLit Json.null)] =
      ⟨[], [replyJson ['A'] completeLit Json.null], [], false, [], .joinCrashed⟩ :=
  claim5_terminal_no_stop_sent ['A'] Json.null completeLit (Or.inr rfl) []

/-- C1: the delivery loop never invokes the callback on a keepalive frame —
for every sequence of incoming messages, every frame handed to the callback
has a `type` field different from `"ka"` — and the default callback
`_on_message` prints nothing for a message whose decoded `type` is `"ka"`. -/
theorem claim1_no_ka_to_callback :
    (∀ _id msgs call, call ∈ (subsRun _id msgs).calls →
      jGet call.2 typeKey ≠ some (.str kaLit)) ∧
    (∀ message r, loads message = some r → jGet r typeKey = some (.str kaLit) →
      on_message message = some []) := by
  constructor
  · intro _id msgs
    induction msgs with
    | nil =>
      intro call h
      simp [subsRun] at h
    | cons m rest ih =>
      intro call h
      rw [subsRun] at h
      cases hl : loads m with
      | none => simp [hl] at h
      | some r =>
        cases hg : jGet r typeKey with
        | none => simp [hl, hg] at h
        | some t =>
          simp only [hl, hg] at h
          by_cases ht : (isStrEq t errorLit || isStrEq t completeLit) = true
          · rw [if_pos ht] at h
            simp at h
          · rw [if_neg ht] at h
            by_cases hk : isStrEq t kaLit = false
            · rw [if_pos hk] at h
              simp at h
              rcases h with h | h
              · subst h
                show jGet r typeKey ≠ some (.str kaLit)
                rw [hg]
                intro he
                injection he with he2
                subst he2
                simp [isStrEq] at hk
              · exact ih call h
            · rw [if_neg hk] at h
              exact ih call h
  · intro message r hl hg
    simp [on_message, hl, hg, isStrEq]

theorem claim1_witness :
    jGet (replyJson ['A'] dataLit Json.null) typeKey ≠ some (.str kaLit) ∧
    on_message (dumps kaJson) = some [] := by
  constructor
  · exact claim1_no_ka_to_callback.1 ['x'] [dumps (replyJson ['A'] dataLit Json.null)]
      (['x'], replyJson ['A'] dataLit Json.null)
      (by
        have n1 : ¬ (dataLit = errorLit) := by decide
        have n2 : ¬ (dataLit = completeLit) := by decide
        have n3 : ¬ (dataLit = kaLit) := by decide
        simp [subsRun, loads_dumps, jGet_reply_type, isStrEq, n1, n2, n3])
  · exact claim1_no_ka_to_callback.2 (dumps kaJson) kaJson (loads_dumps kaJson) jGet_ka_type

/-- C2: with at least the three transport replies `query` consumes, a
`query` call performs, in order: the `connection_init` send (whose ack is
the first receive), the `start` send tagged with the freshly generated
identifier, exactly one further blocking receive — whose raw content is what
`query` returns — and the `stop` send for that same identifier (whose reply
is the third receive).  The final state records the three sent frames in
order, the three consumed messages, and the advanced identifier stream. -/
theorem claim2_query_protocol (s : WSState) (q : List Char) (vars headers : Json)
    (m1 m2 m3 : List Char) (t : List (List Char))
    (hin : s.incoming = m1 :: m2 :: m3 :: t) :
    queryOp s q vars headers =
      some (m2,
        { incoming := t,
          sent := s.sent ++ [dumps (connInitJson headers),
            dumps (startJson (s.ids s.idIdx) (queryPayload headers q vars)),
            dumps (stopJson (s.ids s.idIdx))],
          ids := s.ids,
          idIdx := s.idIdx + 1 }) := by
  rcases s with ⟨inc, sent, ids, idx⟩
  simp only [] at hin
  subst hin
  simp [queryOp, conn_init, startOp, stopOp, sendMsg, recvMsg]

theorem claim2_witness :
    queryOp
      { incoming := [['a'], ['b'], ['c']], sent := [], ids := fun _ => ['i'], idIdx := 0 }
      ['q'] Json.null Json.null =
    some (['b'],
      { incoming := [],
        sent := [dumps (connInitJson Json.null),
          dumps (startJson ['i'] (queryPayload Json.null ['q'] Json.null)),
          dumps (stopJson ['i'])],
        ids := fun _ => ['i'], idIdx := 1 }) := by
  have h := claim2_query_protocol
    { incoming := [['a'], ['b'], ['c']], sent := [], ids := fun _ => ['i'], idIdx := 0 }
    ['q'] Json.null Json.null ['a'] ['b'] ['c'] [] rfl
  simpa using h

/-- C3 (counterexample): `query` does not check the identifier of the frame
it returns.  Here the identifier stream generates `"ab"`, but the transport
answers the `start` with a frame whose id is `"ZZ"`; `query` returns that
frame unchanged, so the returned frame's id differs from the identifier
generated by `_start` in that call — contradicting the claim as stated. -/
theorem claim3_counterexample :
    (queryOp
      { incoming := [dumps (connInitJson Json.null),
          dumps (replyJson ['Z', 'Z'] dataLit Json.null),
          dumps (replyJson ['Z', 'Z'] completeLit Json.null)],
        sent := [], ids := fun _ => ['a', 'b'], idIdx := 0 }
      ['q'] Json.null Json.null).map Prod.fst =
        some (dumps (replyJson ['Z', 'Z'] dataLit Json.null)) ∧
    loads (dumps (replyJson ['Z', 'Z'] dataLit Json.null)) =
      some (replyJson ['Z', 'Z'] dataLit Json.null) ∧
    jGet (replyJson ['Z', 'Z'] dataLit Json.null) idKey = some (.str ['Z', 'Z']) ∧
    (['Z', 'Z'] : List Char) ≠ (fun _ => ['a', 'b'] : Nat → List Char) 0 := by
  refine ⟨?_, loads_dumps _, jGet_reply_id _ _ _, by decide⟩
  simp [queryOp, conn_init, startOp, stopOp, sendMsg, recvMsg]

/-- C3 (amended): `query` returns the transport's next frame after `start`
verbatim, without any identifier check; consequently, whenever the frame
obtained by that single receive carries the identifier generated by `_start`
in the same call, the frame returned by `query` has a matching id. -/
theorem claim3_amended_id_match (s : WSState) (q : List Char) (vars headers : Json)
    (m1 m2 m3 : List Char) (t : List (List Char)) (frame : Json)
    (hin : s.incoming = m1 :: m2 :: m3 :: t)
    (hm2 : loads m2 = some frame)
    (hid : jGet frame idKey = some (.str (s.ids s.idIdx))) :
    (queryOp s q vars headers).map Prod.fst = some m2 ∧
    ∀ f, loads m2 = some f → jGet f idKey = some (.str (s.ids s.idIdx)) := by
  constructor
  · rcases s with ⟨inc, sent, ids, idx⟩
    simp only [] at hin
    subst hin
    simp [queryOp, conn_init, startOp, stopOp, sendMsg, recvMsg]
  · intro f hf
    rw [hm2] at hf
    injection hf with hf2
    subst hf2
    exact hid

theorem claim3_witness :
    (queryOp
      { incoming := [['a'], dumps (replyJson ['i'] dataLit Json.null), ['c']],
        sent := [], ids := fun _ => ['i'], idIdx := 0 }
      ['q'] Json.null Json.null).map Prod.fst =
        some (dumps (replyJson ['i'] dataLit Json.null)) ∧
    ∀ f, loads (dumps (replyJson ['i'] dataLit Json.null)) = some f →
      jGet f idKey = some (.str ['i']) := by
  have h := claim3_amended_id_match
    { incoming := [['a'], dumps (replyJson ['i'] dataLit Json.null), ['c']],
      sent := [], ids := fun _ => ['i'], idIdx := 0 }
    ['q'] Json.null Json.null
    ['a'] (dumps (replyJson ['i'] dataLit Json.null)) ['c'] [] (replyJson ['i'] dataLit Json.null)
    rfl (loads_dumps _) (jGet_reply_id _ _ _)
  exact h

/-! ## The HTTP retry loop -/

/-- The observable behavior of the session branch of `_send` on any three
prepared responses: post up to 3 times, break as soon as a status is exactly
200, sleep after every non-200 response, and return the parsed body of the
breaking response or — when no attempt broke — of the last response,
successful or not. -/
theorem sessionSend_three (r0 r1 r2 : HResp) (j0 j1 j2 : Json)
    (h0 : loads r0.body = some j0) (h1 : loads r1.body = some j1)
    (h2 : loads r2.body = some j2) :
    sessionSend (fun n => if n = 0 then .ok r0 else if n = 1 then .ok r1 else .ok r2) =
      if r0.status = 200 then ⟨1, 0, .ok j0⟩
      else if r1.status = 200 then ⟨2, 1, .ok j1⟩
      else if r2.status = 200 then ⟨3, 2, .ok j2⟩
      else ⟨3, 3, .ok j2⟩ := by
  by_cases c0 : r0.status = 200
  · simp [sessionSend, numberOfTrials, runTrials, c0, h0]
  · by_cases c1 : r1.status = 200
    · simp [sessionSend, numberOfTrials, runTrials, c0, c1, h1]
    · by_cases c2 : r2.status = 200
      · simp [sessionSend, numberOfTrials, runTrials, c0, c1, c2, h2]
      · simp [sessionSend, numberOfTrials, runTrials, c0, c1, c2, h2]

/-- C6 (counterexample): a 204 response is an HTTP success, yet `_send`
keeps retrying — it breaks only on status 200 exactly.  With responses
204, 500, 500 it posts 3 times, sleeps 3 times, and returns the last (500)
response's parsed body — not the successful 204 response's body (the two
bodies differ here), so "stopping early once the response status is
success" fails on the code as stated. -/
theorem claim6_counterexample :
    sessionSend (fun n => if n = 0 then .ok ⟨204, dumps (Json.bool true)⟩
        else .ok ⟨500, dumps Json.null⟩) =
      ⟨3, 3, .ok Json.null⟩ ∧ 200 ≤ 204 ∧ 204 < 300 := by
  exact ⟨rfl, by omega, by omega⟩

/-- C6 (amended): when a session object is supplied, `execute` posts the
request at most 3 times, stopping early exactly when a response status is
200 (any other status, 2xx successes included, is retried), sleeping one
fixed time unit after each non-200 response; it returns the parsed JSON
body of the breaking response, or of the last response when all three
attempts were used — whether or not that one succeeded.  In particular
statuses 500,500,200 yield the 200 response's body after 3 posts, and
500,500,500 yield the last 500 response's body without raising. -/
theorem claim6_retry_semantics (r0 r1 r2 : HResp) (j0 j1 j2 : Json)
    (h0 : loads r0.body = some j0) (h1 : loads r1.body = some j1)
    (h2 : loads r2.body = some j2) :
    sessionSend (fun n => if n = 0 then .ok r0 else if n = 1 then .ok r1 else .ok r2) =
      if r0.status = 200 then ⟨1, 0, .ok j0⟩
      else if r1.status = 200 then ⟨2, 1, .ok j1⟩
      else if r2.status = 200 then ⟨3, 2, .ok j2⟩
      else ⟨3, 3, .ok j2⟩ :=
  sessionSend_three r0 r1 r2 j0 j1 j2 h0 h1 h2

theorem claim6_witness :
    sessionSend (fun n => if n = 0 then .ok ⟨500, dumps Json.null⟩
        else if n = 1 then .ok ⟨500, dumps Json.null⟩
        else .ok ⟨200, dumps (Json.bool true)⟩) =
      ⟨3, 2, .ok (Json.bool true)⟩ := by
  have h := claim6_retry_semantics ⟨500, dumps Json.null⟩ ⟨500, dumps Json.null⟩
    ⟨200, dumps (Json.bool true)⟩ Json.null Json.null (Json.bool true)
    (loads_dumps _) (loads_dumps _) (loads_dumps _)
  simpa using h

/-- C7 (counterexample): on the sessionless path a non-2xx status is not
"returned, not raised": `urllib.request.urlopen` raises `HTTPError`, the
handler prints the error body and re-raises, so the caller of `execute`
sees an exception (modelled by `Except.error`), not a returned response. -/
theorem claim7_counterexample :
    plainSend ⟨500, dumps Json.null⟩ = .error () ∧ ¬ (200 ≤ 500 ∧ 500 < 300) :=
  ⟨rfl, by omega⟩

/-- C7 (amended): on the session-based path a bad status never raises —
whatever the statuses of the three prepared responses, `execute` returns
the parsed body of one of them (the breaking one, or the last after
retries are exhausted); only a transport-level failure raises there.  On
the sessionless one-shot path, however, any non-2xx status raises (the
re-raised `HTTPError`). -/
theorem claim7_status_behavior :
    (∀ r0 r1 r2 : HResp, ∀ j0 j1 j2 : Json, loads r0.body = some j0 →
      loads r1.body = some j1 → loads r2.body = some j2 →
      ∃ j, (sessionSend (fun n => if n = 0 then .ok r0 else if n = 1 then .ok r1
        else .ok r2)).outcome = .ok j) ∧
    (∀ r : HResp, ¬ (200 ≤ r.status ∧ r.status < 300) → plainSend r = .error ()) ∧
    (∀ post, post 0 = PostResult.netFail → (sessionSend post).outcome = .error ()) := by
  refine ⟨?_, ?_, ?_⟩
  · intro r0 r1 r2 j0 j1 j2 h0 h1 h2
    have h := sessionSend_three r0 r1 r2 j0 j1 j2 h0 h1 h2
    split_ifs at h <;> exact ⟨_, by rw [h]⟩
  · intro r hr
    simp [plainSend, hr]
  · intro post hf
    simp [sessionSend, numberOfTrials, runTrials, hf]

theorem claim7_witness :
    (∃ j, (sessionSend (fun n => if n = 0 then .ok ⟨500, dumps Json.null⟩
      else if n = 1 then .ok ⟨500, dumps Json.null⟩
      else .ok ⟨500, dumps Json.null⟩)).outcome = .ok j) ∧
    plainSend ⟨404, dumps Json.null⟩ = .error () ∧
    (sessionSend (fun _ => PostResult.netFail)).outcome = .error () :=
  ⟨claim7_status_behavior.1 ⟨500, dumps Json.null⟩ ⟨500, dumps Json.null⟩
      ⟨500, dumps Json.null⟩ Json.null Json.null Json.null
      (loads_dumps _) (loads_dumps _) (loads_dumps _),
   claim7_status_behavior.2.1 ⟨404, dumps Json.null⟩ (by decide),
   claim7_status_behavior.2.2 (fun _ => PostResult.netFail) rfl⟩

/-! ## `gen_id` -/

theorem genChars_spec (chars : List Char) (hc : chars ≠ []) (rand : Nat → Nat) :
    ∀ k i, ∃ s, genChars chars rand i k = some s ∧
      s.length = k ∧ ∀ c ∈ s, c ∈ chars := by
  intro k
  induction k with
  | zero => exact fun i => ⟨[], rfl, rfl, by simp⟩
  | succ k ih =>
    intro i
    obtain ⟨s, hs, hl, hm⟩ := ih (i + 1)
    have hlen : 0 < chars.length := List.length_pos.mpr hc
    have hlt : rand i % chars.length < chars.length := Nat.mod_lt _ hlen
    rcases hg : chars.get? (rand i % chars.length) with _ | c
    · rw [List.get?_eq_get hlt] at hg
      exact absurd hg (by simp)
    · refine ⟨c :: s, ?_, by simp [hl], ?_⟩
      · rw [List.get?_eq_getElem?] at hg
        rw [genChars]
        simp [randomChoice, hg, hs]
      · intro x hx
        rcases List.mem_cons.mp hx with hx | hx
        · subst hx
          exact List.get?_mem hg
        · exact hm x hx

/-- C8: `gen_id(size, chars)` returns a string of length `size` every
character of which belongs to `chars` (for any nonempty alphabet and any
random draws); with the default parameters it returns a string of exactly 6
characters, each an upper-case letter, a lower-case letter, or a digit. -/
theorem claim8_gen_id :
    (∀ size chars rand, chars ≠ [] → ∃ s, gen_id size chars rand = some s ∧
      s.length = size ∧ ∀ c ∈ s, c ∈ chars) ∧
    (∀ rand, ∃ s, gen_id 6 defaultIdChars rand = some s ∧ s.length = 6 ∧
      ∀ c ∈ s, (c.isUpper ∨ c.isLower ∨ c.isDigit)) := by
  have base : ∀ size chars rand, chars ≠ [] → ∃ s, gen_id size chars rand = some s ∧
      s.length = size ∧ ∀ c ∈ s, c ∈ chars := by
    intro size chars rand hc
    obtain ⟨s, hs, hl, hm⟩ := genChars_spec chars hc rand size 0
    exact ⟨s, hs, hl, hm⟩
  refine ⟨base, ?_⟩
  intro rand
  obtain ⟨s, hs, hl, hm⟩ := base 6 defaultIdChars rand (by decide)
  refine ⟨s, hs, hl, ?_⟩
  intro c hcs
  have hall : ∀ c ∈ defaultIdChars, (c.isUpper || c.isLower || c.isDigit) = true := by decide
  have := hall c (hm c hcs)
  simp only [Bool.or_eq_true] at this
  tauto

theorem claim8_witness :
    (∃ s, gen_id 3 ['a', 'b'] (fun i => i) = some s ∧ s.length = 3 ∧
      ∀ c ∈ s, c ∈ (['a', 'b'] : List Char)) ∧
    (∃ s, gen_id 6 defaultIdChars (fun _ => 0) = some s ∧ s.length = 6 ∧
      ∀ c ∈ s, (c.isUpper ∨ c.isLower ∨ c.isDigit)) :=
  ⟨claim8_gen_id.1 3 ['a', 'b'] (fun i => i) (by decide),
   claim8_gen_id.2 (fun _ => 0)⟩

/-! ## The shared subscription registry -/

/-- C10: the session keeps one `_subscription_running` flag and one `_st_id`
thread reference for all subscriptions.  After two `subscribe` calls the
stored thread reference is the second thread (each call overwrites it), and
`stop_subscribe(anyId)` — for every identifier whatsoever — clears the
shared flag, joins the most recently stored thread, then sends a `stop`
frame carrying the given identifier and consumes exactly one receive. -/
theorem claim10_shared_registry (s : SubSession) (q1 q2 : List Char)
    (v1 hd1 v2 hd2 : Json) (m1 m2 m3 : List Char) (t : List (List Char))
    (hin : s.ws.incoming = m1 :: m2 :: m3 :: t) :
    ∃ id1 s1 id2 s2,
      subscribeOp s q1 v1 hd1 = some (id1, s1) ∧
      subscribeOp s1 q2 v2 hd2 = some (id2, s2) ∧
      s1.stId = some s.nextThread ∧
      s2.stId = some (s.nextThread + 1) ∧
      ∀ anyId, ∃ s3,
        stop_subscribe s2 anyId = some (s3, m3) ∧
        s3.subscriptionRunning = false ∧
        s3.joined = s2.joined ++ [s.nextThread + 1] ∧
        s3.ws.sent = s2.ws.sent ++ [dumps (stopJson anyId)] ∧
        s3.ws.incoming = t := by
  rcases s with ⟨⟨inc, sent, ids, idx⟩, run, st, nt, jn⟩
  simp only [] at hin
  subst hin
  refine ⟨_, _, _, _, rfl, rfl, rfl, rfl, ?_⟩
  intro anyId
  exact ⟨_, rfl, rfl, rfl, rfl, rfl⟩

theorem claim10_witness :
    ∃ id1 s1 id2 s2,
      subscribeOp
        { ws := { incoming := [['a'], ['b'], ['c']], sent := [],
                  ids := fun _ => ['i'], idIdx := 0 },
          subscriptionRunning := false, stId := none, nextThread := 0, joined := [] }
        ['q'] Json.null Json.null = some (id1, s1) ∧
      subscribeOp s1 ['r'] Json.null Json.null = some (id2, s2) ∧
      s1.stId = some 0 ∧
      s2.stId = some (0 + 1) ∧
      ∀ anyId, ∃ s3,
        stop_subscribe s2 anyId = some (s3, ['c']) ∧
        s3.subscriptionRunning = false ∧
        s3.joined = s2.joined ++ [0 + 1] ∧
        s3.ws.sent = s2.ws.sent ++ [dumps (stopJson anyId)] ∧
        s3.ws.incoming = [] :=
  claim10_shared_registry
    { ws := { incoming := [['a'], ['b'], ['c']], sent := [],
              ids := fun _ => ['i'], idIdx := 0 },
      subscriptionRunning := false, stId := none, nextThread := 0, joined := [] }
    ['q'] ['r'] Json.null Json.null Json.null Json.null ['a'] ['b'] ['c'] [] rfl

end GQL
